import Mathlib

/-
  Verification development for the polybot copy-trading engine.

  The Python sources are shallowly embedded over exact rational arithmetic:
  `decimal.Decimal` quantities and float prices/sizes become `ℚ`,
  `Decimal.quantize(Decimal("0.01"), ROUND_DOWN)` becomes `floor2`,
  fallible calls become explicit success/failure parameters, and stateful
  methods become functions from state to state.

  The Batteries rational operations are irreducible by default; making them
  semireducible lets `decide` evaluate embedded definitions on concrete inputs.
-/

attribute [local semireducible] Rat.mul Rat.add Rat.sub Rat.inv

namespace Polybot

/-- Round a rational down to two decimal places.  Embeds
`Decimal(...).quantize(Decimal("0.01"), rounding=ROUND_DOWN)` from
`portfolio_manager.py` and `math.floor(x * 100) / 100` from `execution.py`. -/
def floor2 (q : ℚ) : ℚ := ((q * 100).floor : ℚ) / 100

/-- Python `int()` truncation toward zero, as used by
`int(requests_per_second * 2)` in `rate_limiter.py`. -/
def pyInt (q : ℚ) : ℤ := q.num.tdiv q.den

/-- Python `min()` over a sequence of prices, as used by
`min(a.price for a in depth.asks)` in `portfolio_manager.py`.
Empty sequences raise in Python; the embedding returns `none`. -/
def pyMin : List ℚ → Option ℚ
  | [] => none
  | x :: xs => some (xs.foldl min x)

/-- `Side` from `core/models.py`. -/
inductive Side where
  | BUY
  | SELL
deriving DecidableEq

/-- `OrderStatus` from `core/models.py`. -/
inductive OrderStatus where
  | PENDING
  | FILLED
  | REJECTED
  | CANCELLED
deriving DecidableEq

/-- `MarketDepthLevel` from `core/models.py` (float fields embedded as `ℚ`). -/
structure MarketDepthLevel where
  price : ℚ
  size : ℚ
deriving DecidableEq

/-- `MarketDepth` from `core/models.py` (the `min_order_size` field is not
used by the code under verification). -/
structure MarketDepth where
  bids : List MarketDepthLevel
  asks : List MarketDepthLevel
deriving DecidableEq

/-- `Order` from `core/models.py`. -/
structure Order where
  token_id : String
  market_name : Option String := none
  side : Side
  size : ℚ
  price_limit : ℚ
  status : OrderStatus := .PENDING
  order_id : Option String := none
deriving DecidableEq

/-- `Position` from `core/models.py`. -/
structure Position where
  token_id : String
  size : ℚ
  average_entry_price : ℚ
  current_price : ℚ
deriving DecidableEq

/-- `TradeAnalysis`.  Its class body is absent from the copy of
`core/models.py` under `src/` (the file is referenced by
`core/interfaces.py` and `services/ai_analysis_service.py`).  Modelled from
the spec's data-model table and from the keyword-argument constructor calls
in `services/ai_analysis_service.py`; only the fields those call sites use
are kept. -/
structure TradeAnalysis where
  should_trade : Bool
  confidence : ℚ
  justification : String := ""
  risk_factors : List String := []
  opportunity_factors : List String := []
deriving DecidableEq

/-- The persistent part of `PortfolioManager` state
(`services/portfolio_manager.py`): `cumulative_spend` and
`managed_tokens` as written to `bot_state.json`. -/
structure BotState where
  cumulative_spend : ℚ
  managed_tokens : List String
deriving DecidableEq

/-- In-memory bot state together with the last content persisted by
`PortfolioManager._save_state` (`none` when nothing has been written). -/
structure PMState where
  bot : BotState
  saved_file : Option BotState
deriving DecidableEq

/-- The `PortfolioManager` configuration fields read by the BUY entry
pipeline. -/
structure PMConfig where
  min_share_price : ℚ
  max_budget : ℚ
deriving DecidableEq

/-- `self.managed_tokens.add(event.token_id)` — set insertion. -/
def insertManaged (t : String) (l : List String) : List String :=
  if t ∈ l then l else t :: l

/-- Result of one run of the BUY entry pipeline. -/
inductive BuyResult where
  | skipped (reason : String)
  | placed (o : Order)
deriving DecidableEq

/-- Embeds `PortfolioManager._handle_buy_signal` from the balance check
onward (steps 1-4 of the method; the AI gate in step 0 is embedded
separately as `aiGate`).  `placeOrderOk` is the oracle for whether
`exchange.place_order` returns normally; when it raises, the surrounding
`except` block swallows the error, which the embedding models by returning
the unchanged state.  A zero `limit_price` makes the `Decimal` division
raise, which the same `except` block catches. -/
def handleBuyCore (cfg : PMConfig) (st : PMState) (token : String)
    (market_label : String) (balance : ℚ) (depth : MarketDepth)
    (placeOrderOk : Bool) : PMState × BuyResult :=
  if balance < 1 then (st, .skipped "not enough funds")
  else
    match pyMin (depth.asks.map (·.price)) with
    | none => (st, .skipped "no sellers found")
    | some best_ask =>
      if best_ask < cfg.min_share_price then (st, .skipped "below min share price")
      else
        let limit_price := floor2 best_ask
        if limit_price = 0 then (st, .skipped "decimal division error")
        else
          let min_order_usd : ℚ := 2
          let min_size : ℚ := 5
          let size0 := floor2 (min_order_usd / limit_price)
          let size := if size0 < min_size then min_size else size0
          let cost_estimate := floor2 (size * limit_price)
          if cfg.max_budget < st.bot.cumulative_spend + cost_estimate then
            (st, .skipped "max budget exceeded")
          else
            let order : Order :=
              { token_id := token
                market_name := some market_label
                side := .BUY
                size := size
                price_limit := limit_price }
            if placeOrderOk then
              let bot' : BotState :=
                { cumulative_spend := st.bot.cumulative_spend + size * limit_price
                  managed_tokens := insertManaged token st.bot.managed_tokens }
              ({ bot := bot', saved_file := some bot' }, .placed order)
            else (st, .skipped "failed to mirror buy")

/-- `range(20)` in `PortfolioManager._prompt_manual_override`. -/
def overridePollCount : ℕ := 20

/-- `await asyncio.sleep(0.5)` before each poll of the approval marker. -/
def overridePollInterval : ℚ := 1 / 2

/-- The instants (seconds after the prompt) at which
`_prompt_manual_override` tests for the approval marker: each loop
iteration sleeps `overridePollInterval` and then checks. -/
def overrideCheckTimes : List ℚ :=
  (List.range overridePollCount).map (fun i => ((i : ℚ) + 1) * overridePollInterval)

/-- Embeds `PortfolioManager._prompt_manual_override`.  The filesystem is
modelled by the instant (if any) at which the operator creates the approval
marker; a stale marker is removed before the prompt, so only markers
created from the prompt onward exist.  Returns (approved, marker still
present after the prompt) — on approval the marker file is removed. -/
def promptManualOverride (markerCreatedAt : Option ℚ) : Bool × Bool :=
  match markerCreatedAt with
  | none => (false, false)
  | some t =>
    if overrideCheckTimes.any (fun c => decide (t ≤ c)) then (true, false)
    else (false, true)

/-- Embeds step 0 of `PortfolioManager._handle_buy_signal` (the AI gate,
for the case where the AI service is present and enabled).  Returns
(proceed with the trade?, was the manual-override prompt shown?). -/
def aiGate (analysis : TradeAnalysis) (ai_min_confidence : ℚ)
    (markerCreatedAt : Option ℚ) : Bool × Bool :=
  if analysis.should_trade then (true, false)
  else if ai_min_confidence ≤ analysis.confidence then
    ((promptManualOverride markerCreatedAt).1, true)
  else (true, false)

/-- Outcome of one `_check_position_risk` call. -/
inductive RiskAction where
  | noAction
  | stopLossExit (size min_price : ℚ)
  | takeProfitExit (size min_price : ℚ)
deriving DecidableEq

/-- Embeds `PortfolioManager._check_position_risk` as found in
`src/services/portfolio_manager.py`, given the market price it resolved
(metadata outcome price, else best bid, else 0).  This version has no
hold-threshold fields at all. -/
def checkPositionRisk (stop_loss_pct take_profit_pct : ℚ)
    (pos : Position) (market_price : ℚ) : RiskAction :=
  if market_price = 0 then .noAction
  else
    let roi := (market_price - pos.average_entry_price) / pos.average_entry_price
    if roi < -stop_loss_pct then .stopLossExit pos.size (1 / 100)
    else if take_profit_pct < roi then .takeProfitExit (pos.size / 2) (market_price * (9 / 10))
    else .noAction

/-- Modelled from the spec: the hold-band risk check of section 4.6.2
(steps 5-7), which is missing from `src/services/portfolio_manager.py`
although its caller `src/main.py` constructs `PortfolioManager` with
`take_profit_hold_min_price` / `stop_loss_hold_min_price` and calls
`update_crypto_rules`, none of which that file defines.  The effective
thresholds (default or crypto, selected in step 4) are parameters.  A hold
threshold above 0 suppresses the trigger while `market_price` is at or
above it. -/
def checkPositionRiskHold (stop_loss_pct take_profit_pct sl_hold_min tp_hold_min : ℚ)
    (pos : Position) (market_price : ℚ) : RiskAction :=
  if market_price = 0 then .noAction
  else
    let roi := (market_price - pos.average_entry_price) / pos.average_entry_price
    if roi < -stop_loss_pct ∧ (sl_hold_min = 0 ∨ market_price < sl_hold_min) then
      .stopLossExit pos.size (1 / 100)
    else if take_profit_pct < roi ∧ (tp_hold_min = 0 ∨ market_price < tp_hold_min) then
      .takeProfitExit (pos.size / 2) (market_price * (9 / 10))
    else .noAction

/-- The `AIAnalysisService` fields involved in `should_execute_trade`
(`services/ai_analysis_service.py`).  `request_count` and `max_requests`
are Python ints (`max_requests <= 0` means unlimited). -/
structure AIState where
  cache : List (String × TradeAnalysis)
  request_count : ℤ
  max_requests : ℤ
  consecutive_failures : ℕ
  circuit_breaker_threshold : ℕ
  circuit_breaker_cooldown : ℚ
  circuit_open_until : ℚ
deriving DecidableEq

/-- Result of the rate-limited analyzer call inside
`should_execute_trade`: a normal return, an `asyncio.TimeoutError` from
the rate-limiter queue, or any other exception. -/
inductive AnalyzerOutcome where
  | ok (a : TradeAnalysis)
  | timeout
  | err (msg : String)
deriving DecidableEq

/-- Which branch of `should_execute_trade` produced the result. -/
inductive AIPath where
  | cacheHit
  | limitBlocked
  | circuitBlocked
  | timeoutBlocked
  | errorBlocked
  | success
deriving DecidableEq

/-- Return value of the embedded `should_execute_trade`. -/
structure AIResult where
  state : AIState
  approved : Bool
  analysis : TradeAnalysis
  path : AIPath
deriving DecidableEq

/-- The blocking fallback `TradeAnalysis` constructed on every failure
path of `should_execute_trade`. -/
def fallbackAnalysis (justification : String) (risks : List String) : TradeAnalysis :=
  { should_trade := false
    confidence := 0
    justification := justification
    risk_factors := risks
    opportunity_factors := [] }

/-- `AIAnalysisService.get_cached_analysis` (the JSON round-trip is
modelled as the identity). -/
def getCachedAnalysis (cache : List (String × TradeAnalysis)) (token : String) :
    Option TradeAnalysis :=
  (cache.find? (fun p => p.1 = token)).map (·.2)

/-- `AIAnalysisService.is_limit_reached`. -/
def isLimitReached (s : AIState) : Bool :=
  decide (0 < s.max_requests) && decide (s.max_requests ≤ s.request_count)

/-- The open test of `AIAnalysisService._is_circuit_open`. -/
def isCircuitOpen (s : AIState) (now : ℚ) : Bool :=
  decide (0 < s.circuit_open_until) && decide (now < s.circuit_open_until)

/-- The closing branch of `_is_circuit_open`: once the cooldown deadline
passed, the breaker closes and the consecutive-failure count resets. -/
def circuitClose (s : AIState) : AIState :=
  if 0 < s.circuit_open_until then
    { s with circuit_open_until := 0, consecutive_failures := 0 }
  else s

/-- `AIAnalysisService._record_failure`. -/
def recordFailure (s : AIState) (now : ℚ) : AIState :=
  let f := s.consecutive_failures + 1
  if s.circuit_breaker_threshold ≤ f then
    { s with consecutive_failures := f
             circuit_open_until := now + s.circuit_breaker_cooldown }
  else { s with consecutive_failures := f }

/-- `AIAnalysisService._record_success`. -/
def recordSuccess (s : AIState) : AIState :=
  if 0 < s.consecutive_failures then { s with consecutive_failures := 0 } else s

/-- Embeds `AIAnalysisService.should_execute_trade`.  `outcome` is the
oracle for the rate-limited analyzer call (only consulted when the call is
reached); metadata and depth fetches do not affect the fields modelled
here, and any exception they raise in the Python code is absorbed by the
same `except` clause as analyzer errors (`AnalyzerOutcome.err`). -/
def shouldExecuteTrade (s : AIState) (token : String) (now : ℚ)
    (outcome : AnalyzerOutcome) : AIResult :=
  match getCachedAnalysis s.cache token with
  | some cached => { state := s, approved := cached.should_trade, analysis := cached, path := .cacheHit }
  | none =>
    if isLimitReached s then
      { state := s, approved := false
        analysis := fallbackAnalysis "API limit reached. Blocking trade for safety."
          ["AI analysis skipped - API limit"]
        path := .limitBlocked }
    else if isCircuitOpen s now then
      { state := s, approved := false
        analysis := fallbackAnalysis
          "AI circuit breaker open (too many recent failures). Blocking trade for safety."
          ["AI circuit breaker active"]
        path := .circuitBlocked }
    else
      let s1 := circuitClose s
      match outcome with
      | .ok a =>
        let s2 : AIState :=
          { s1 with request_count := s1.request_count + 1
                    cache := (token, a) :: s1.cache }
        { state := recordSuccess s2, approved := a.should_trade, analysis := a, path := .success }
      | .timeout =>
        { state := recordFailure s1 now, approved := false
          analysis := fallbackAnalysis "AI request queue timeout. Blocking trade for safety."
            ["AI analysis skipped - queue timeout"]
          path := .timeoutBlocked }
      | .err msg =>
        { state := recordFailure s1 now, approved := false
          analysis := fallbackAnalysis msg ["AI analysis error"]
          path := .errorBlocked }

/-- One fetched activity item from the whale activity API
(`whale_watcher.py`); `timestamp = 0` models a missing/falsy timestamp,
and the strings are already upper-cased as in `_process_activity`. -/
structure Activity where
  timestamp : ℕ
  activity_type : String
  side : String
deriving DecidableEq

/-- `Side(side_str)` — mapping the server string to the domain enum. -/
def sideOfString (s : String) : Option Side :=
  if s = "BUY" then some .BUY else if s = "SELL" then some .SELL else none

/-- An emitted `TradeEvent`, restricted to the fields the ordering claims
are about. -/
structure WhaleEvent where
  timestamp : ℕ
  side : Side
deriving DecidableEq

/-- Embeds `WhaleMonitor._process_activity`: only TRADE/MATCH activities
with a recognized side produce an event. -/
def processActivity (a : Activity) : Option WhaleEvent :=
  if a.activity_type = "TRADE" ∨ a.activity_type = "MATCH" then
    match sideOfString a.side with
    | some sd => some { timestamp := a.timestamp, side := sd }
    | none => none
  else none

/-- Embeds one `WhaleMonitor._check_wallet` call for one wallet:
`cursor` is `last_timestamps[addr]` (0 when unset) and `fetched` is the
activity list returned by `_fetch_activity_async` (newest first).  Returns
the new cursor and the event handed to `on_event`, if any; the cursor is
updated before `_process_activity` runs. -/
def checkWallet (cursor : ℕ) (fetched : List Activity) : ℕ × Option WhaleEvent :=
  match fetched with
  | [] => (cursor, none)
  | newest :: _ =>
    if newest.timestamp = 0 then (cursor, none)
    else if cursor = 0 then (newest.timestamp, none)
    else if cursor < newest.timestamp then (newest.timestamp, processActivity newest)
    else (cursor, none)

/-- A sequence of `_check_wallet` calls for a single wallet, threading the
cursor and collecting the emitted events in order. -/
def runWallet (cursor : ℕ) : List (List Activity) → ℕ × List WhaleEvent
  | [] => (cursor, [])
  | f :: fs =>
    let r1 := checkWallet cursor f
    let r2 := runWallet r1.1 fs
    (r2.1, r1.2.toList ++ r2.2)

/-- Descending order on bids, as produced by
`sorted(bids, key=lambda x: x.price, reverse=True)` in `execution.py`. -/
def bidGE (a b : MarketDepthLevel) : Prop := b.price ≤ a.price

instance : DecidableRel bidGE := fun a b => inferInstanceAs (Decidable (b.price ≤ a.price))

instance : IsTotal MarketDepthLevel bidGE := ⟨fun a b => le_total b.price a.price⟩

instance : IsTrans MarketDepthLevel bidGE := ⟨fun _ _ _ h1 h2 => le_trans h2 h1⟩

/-- The accumulation loop `for bid in sorted_bids: if bid.price < min_price:
break; fillable_qty += bid.size` over an already-sorted list. -/
def sumAbove (min_price : ℚ) : List MarketDepthLevel → ℚ
  | [] => 0
  | b :: rest => if b.price < min_price then 0 else b.size + sumAbove min_price rest

/-- Fillable liquidity above the floor, computed per sweep by
`SmartExecutor.exit_position` (insertion sort stands in for Python's
stable `sorted` with `reverse=True`). -/
def fillableQty (min_price : ℚ) (bids : List MarketDepthLevel) : ℚ :=
  sumAbove min_price (List.insertionSort bidGE bids)

/-- The sweep loop of `SmartExecutor.exit_position`.  `book n` is the
order book fetched on sweep `n` and `placeOk n` tells whether the SELL
submission on sweep `n` returns normally (an exception is logged and the
loop continues; errors fetching the book behave the same way and are
folded into `placeOk` being irrelevant for that sweep only when no order
is attempted).  Returns the total sold and the successfully submitted
orders in submission order. -/
def exitSweeps (book : ℕ → List MarketDepthLevel) (placeOk : ℕ → Bool)
    (token : String) (market_name : String) (min_price : ℚ) :
    ℕ → ℕ → ℚ → ℚ → ℚ × List Order
  | _, 0, _, sold => (sold, [])
  | sweep, sweeps_left + 1, remaining, sold =>
    if remaining ≤ 0 then (sold, [])
    else
      match book sweep with
      | [] => (sold, [])
      | b :: rest =>
        let fillable := fillableQty min_price (b :: rest)
        let chunk := floor2 (min remaining fillable)
        if chunk ≤ 0 then
          exitSweeps book placeOk token market_name min_price (sweep + 1) sweeps_left remaining sold
        else if placeOk sweep then
          let o : Order :=
            { token_id := token
              market_name := some market_name
              side := .SELL
              size := chunk
              price_limit := min_price }
          let r := exitSweeps book placeOk token market_name min_price (sweep + 1) sweeps_left
            (remaining - chunk) (sold + chunk)
          (r.1, o :: r.2)
        else
          exitSweeps book placeOk token market_name min_price (sweep + 1) sweeps_left remaining sold

/-- Embeds `SmartExecutor.exit_position` (sweeps are numbered from 1, as
in `range(1, max_sweeps + 1)`). -/
def exitPosition (book : ℕ → List MarketDepthLevel) (placeOk : ℕ → Bool)
    (token : String) (market_name : String) (total_size min_price : ℚ)
    (max_sweeps : ℕ) : ℚ × List Order :=
  exitSweeps book placeOk token market_name min_price 1 max_sweeps total_size 0

/-- The `AIRateLimiter` fields involved in capacity and refill
(`services/rate_limiter.py`). -/
structure RateLimiterState where
  rps : ℚ
  max_concurrent : ℕ
  queue_timeout : ℚ
  burst_capacity : ℤ
  tokens : ℚ
  last_refill : ℚ
deriving DecidableEq

/-- `max(int(requests_per_second * 2), 5)` — the default burst capacity. -/
def defaultBurst (rps : ℚ) : ℤ := max (pyInt (rps * 2)) 5

/-- Embeds `AIRateLimiter.__init__`; `burst` models the optional
`burst_capacity` argument, with Python's `or` treating `0` like `None`. -/
def rateLimiterInit (rps : ℚ) (max_concurrent : ℕ) (queue_timeout : ℚ)
    (burst : Option ℤ) (now : ℚ) : RateLimiterState :=
  let cap := match burst with
    | some b => if b = 0 then defaultBurst rps else b
    | none => defaultBurst rps
  { rps := rps
    max_concurrent := max_concurrent
    queue_timeout := queue_timeout
    burst_capacity := cap
    tokens := (cap : ℚ)
    last_refill := now }

/-- Embeds `AIRateLimiter._refill_tokens`. -/
def refillTokens (s : RateLimiterState) (now : ℚ) : RateLimiterState :=
  { s with tokens := min (s.tokens + (now - s.last_refill) * s.rps) (s.burst_capacity : ℚ)
           last_refill := now }

/-- Embeds `AIRateLimiter.update_config` (each `None` argument leaves its
field untouched; a new `requests_per_second` recomputes the burst
capacity). -/
def updateConfig (s : RateLimiterState) (rps? : Option ℚ) (max_concurrent? : Option ℕ)
    (queue_timeout? : Option ℚ) : RateLimiterState :=
  let s1 := match rps? with
    | some r => { s with rps := r, burst_capacity := defaultBurst r }
    | none => s
  let s2 := match max_concurrent? with
    | some m => { s1 with max_concurrent := m }
    | none => s1
  match queue_timeout? with
  | some q => { s2 with queue_timeout := q }
  | none => s2

theorem ratFloor_eq_floor (q : ℚ) : (Rat.floor q : ℤ) = ⌊q⌋ := by
  rw [Rat.floor_def', Rat.floor_def]

theorem floor2_le (q : ℚ) : floor2 q ≤ q := by
  have h : ((q * 100).floor : ℚ) ≤ q * 100 := by
    rw [ratFloor_eq_floor]
    exact Int.floor_le _
  unfold floor2
  linarith

theorem lt_floor2_add (q : ℚ) : q < floor2 q + 1 / 100 := by
  have h : q * 100 < ((q * 100).floor : ℚ) + 1 := by
    rw [ratFloor_eq_floor]
    exact Int.lt_floor_add_one _
  unfold floor2
  linarith

theorem floor2_nonneg (q : ℚ) (h : 0 ≤ q) : 0 ≤ floor2 q := by
  have h1 : (0 : ℤ) ≤ (q * 100).floor := by
    rw [ratFloor_eq_floor]
    exact Int.floor_nonneg.2 (by linarith)
  unfold floor2
  positivity

theorem pyInt_eq_floor (q : ℚ) (h : 0 ≤ q) : pyInt q = ⌊q⌋ := by
  unfold pyInt
  rw [Rat.floor_def]
  exact Int.tdiv_eq_ediv (Rat.num_nonneg.2 h) (Int.natCast_nonneg q.den)

theorem foldl_min_le_init (xs : List ℚ) (a : ℚ) : xs.foldl min a ≤ a := by
  induction xs generalizing a with
  | nil => simp
  | cons x xs ih =>
    simp only [List.foldl_cons]
    exact le_trans (ih (min a x)) (min_le_left a x)

theorem foldl_min_le_mem {xs : List ℚ} {x : ℚ} (hx : x ∈ xs) (a : ℚ) :
    xs.foldl min a ≤ x := by
  induction xs generalizing a with
  | nil => cases hx
  | cons y ys ih =>
    simp only [List.foldl_cons]
    rcases List.mem_cons.1 hx with h | h
    · subst h
      exact le_trans (foldl_min_le_init ys (min a x)) (min_le_right a x)
    · exact ih h (min a y)

theorem foldl_min_mem (xs : List ℚ) (a : ℚ) :
    xs.foldl min a = a ∨ xs.foldl min a ∈ xs := by
  induction xs generalizing a with
  | nil => simp
  | cons x xs ih =>
    simp only [List.foldl_cons]
    rcases ih (min a x) with h | h
    · rcases min_cases a x with ⟨he, _⟩ | ⟨he, _⟩
      · left; rw [h, he]
      · right; rw [h, he]; exact List.mem_cons_self x xs
    · right; exact List.mem_cons_of_mem x h

theorem pyMin_mem {l : List ℚ} {m : ℚ} (h : pyMin l = some m) : m ∈ l := by
  cases l with
  | nil => cases h
  | cons x xs =>
    simp only [pyMin, Option.some.injEq] at h
    rcases foldl_min_mem xs x with h1 | h1
    · rw [← h, h1]; exact List.mem_cons_self x xs
    · rw [← h]; exact List.mem_cons_of_mem x h1

theorem pyMin_le {l : List ℚ} {m : ℚ} (h : pyMin l = some m) :
    ∀ x ∈ l, m ≤ x := by
  cases l with
  | nil => cases h
  | cons y ys =>
    simp only [pyMin, Option.some.injEq] at h
    intro x hx
    rcases List.mem_cons.1 hx with h1 | h1
    · rw [← h, h1]; exact foldl_min_le_init ys y
    · rw [← h]; exact foldl_min_le_mem h1 y

theorem sumAbove_eq_filter_sum (min_price : ℚ) (l : List MarketDepthLevel)
    (hs : List.Sorted bidGE l) :
    sumAbove min_price l =
      ((l.filter (fun b => decide (min_price ≤ b.price))).map (·.size)).sum := by
  induction l with
  | nil => simp [sumAbove]
  | cons b rest ih =>
    have hhead : ∀ x ∈ rest, x.price ≤ b.price := fun x hx =>
      List.rel_of_sorted_cons hs x hx
    by_cases hb : b.price < min_price
    · have h0 : sumAbove min_price (b :: rest) = 0 := by
        simp [sumAbove, hb]
      have hfilter : (b :: rest).filter (fun b => decide (min_price ≤ b.price)) = [] := by
        rw [List.filter_eq_nil_iff]
        intro a ha
        rcases List.mem_cons.1 ha with h1 | h1
        · subst h1; simpa using not_le.2 hb
        · have := lt_of_le_of_lt (hhead a h1) hb
          simpa using not_le.2 this
      rw [h0, hfilter]
      simp
    · have hble : min_price ≤ b.price := not_lt.1 hb
      have h1 : sumAbove min_price (b :: rest) = b.size + sumAbove min_price rest := by
        simp [sumAbove, hb]
      rw [h1, ih hs.of_cons]
      simp [List.filter_cons, hble]

theorem fillableQty_eq_filter_sum (min_price : ℚ) (bids : List MarketDepthLevel) :
    fillableQty min_price bids =
      ((bids.filter (fun b => decide (min_price ≤ b.price))).map (·.size)).sum := by
  unfold fillableQty
  rw [sumAbove_eq_filter_sum min_price _ (List.sorted_insertionSort bidGE bids)]
  have hp1 : List.Perm
      ((List.insertionSort bidGE bids).filter (fun b => decide (min_price ≤ b.price)))
      (bids.filter (fun b => decide (min_price ≤ b.price))) :=
    (List.perm_insertionSort bidGE bids).filter _
  exact (hp1.map (·.size)).sum_eq

/-- Inversion of the BUY entry pipeline: everything that must have held
whenever an order was actually placed. -/
theorem handleBuyCore_placed_inv (cfg : PMConfig) (st : PMState)
    (token market_label : String) (balance : ℚ) (depth : MarketDepth)
    (placeOrderOk : Bool) (st' : PMState) (o : Order)
    (h : handleBuyCore cfg st token market_label balance depth placeOrderOk = (st', .placed o)) :
    ∃ best_ask, pyMin (depth.asks.map (·.price)) = some best_ask ∧
      cfg.min_share_price ≤ best_ask ∧
      o.token_id = token ∧
      o.side = .BUY ∧
      o.price_limit = floor2 best_ask ∧
      o.size = (if floor2 (2 / floor2 best_ask) < 5 then 5 else floor2 (2 / floor2 best_ask)) ∧
      st.bot.cumulative_spend + floor2 (o.size * o.price_limit) ≤ cfg.max_budget ∧
      st'.bot.cumulative_spend = st.bot.cumulative_spend + o.size * o.price_limit := by
  simp only [handleBuyCore] at h
  split at h
  · simp at h
  · split at h
    · simp at h
    · rename_i best_ask hask
      split at h
      · simp at h
      · rename_i hmin
        split at h
        · simp at h
        · rename_i hlp
          split at h <;> rename_i hsize
          · split at h
            · simp at h
            · rename_i hbudget
              split at h
              · simp only [Prod.mk.injEq, BuyResult.placed.injEq] at h
                obtain ⟨h1, h2⟩ := h
                subst h2
                refine ⟨best_ask, hask, not_lt.1 hmin, rfl, rfl, rfl, by simp [hsize],
                  not_lt.1 hbudget, ?_⟩
                rw [← h1]
              · simp at h
          · split at h
            · simp at h
            · rename_i hbudget
              split at h
              · simp only [Prod.mk.injEq, BuyResult.placed.injEq] at h
                obtain ⟨h1, h2⟩ := h
                subst h2
                refine ⟨best_ask, hask, not_lt.1 hmin, rfl, rfl, rfl, by simp [hsize],
                  not_lt.1 hbudget, ?_⟩
                rw [← h1]
              · simp at h

/-- Claim C1 counterexample.  With `max_budget = 1.99`, zero prior spend
and best ask `0.33`, the pipeline sizes the order to `6.06 @ 0.33`
(`cost = floor2(1.9998) = 1.99`), the budget check passes with equality
and the BUY is submitted — but the post-success update adds the unfloored
`size * limit_price = 1.9998`, leaving `cumulative_spend` strictly above
`max_budget` and refuting `cumulative_spend_after ≤ max_budget`. -/
theorem c1_counterexample :
    (handleBuyCore { min_share_price := 19/100, max_budget := 199/100 }
        { bot := { cumulative_spend := 0, managed_tokens := [] }, saved_file := none }
        "T1" "M" 10 { bids := [], asks := [{ price := 33/100, size := 50 }] } true).2 =
      .placed { token_id := "T1", market_name := some "M", side := .BUY,
                size := 303/50, price_limit := 33/100 } ∧
    (199 : ℚ)/100 <
      (handleBuyCore { min_share_price := 19/100, max_budget := 199/100 }
        { bot := { cumulative_spend := 0, managed_tokens := [] }, saved_file := none }
        "T1" "M" 10 { bids := [], asks := [{ price := 33/100, size := 50 }] } true).1.bot.cumulative_spend := by
  decide

/-- Claim C1 (amended): after every successful BUY the new
`cumulative_spend` is strictly below `max_budget + 0.01`.  The
pre-submission check bounds `cumulative_spend + floor2(size *
limit_price)` by `max_budget`, and the post-success update adds the
unfloored product, which exceeds its own floor by less than one cent. -/
theorem c1_spend_lt_budget_plus_cent (cfg : PMConfig) (st : PMState)
    (token market_label : String) (balance : ℚ) (depth : MarketDepth)
    (placeOrderOk : Bool) (st' : PMState) (o : Order)
    (h : handleBuyCore cfg st token market_label balance depth placeOrderOk = (st', .placed o)) :
    st'.bot.cumulative_spend < cfg.max_budget + 1 / 100 := by
  obtain ⟨ba, -, -, -, -, -, -, hbudget, hspend⟩ :=
    handleBuyCore_placed_inv cfg st token market_label balance depth placeOrderOk st' o h
  have h2 := lt_floor2_add (o.size * o.price_limit)
  rw [hspend]
  linarith

/-- Claim C1 witness: the amended bound applied to a concrete successful
BUY (spend 0, budget 100, best ask 0.42, order `5.00 @ 0.42`). -/
theorem c1_witness :
    ({ bot := { cumulative_spend := 21/10, managed_tokens := ["T1"] },
       saved_file := some { cumulative_spend := 21/10, managed_tokens := ["T1"] } } :
        PMState).bot.cumulative_spend < (100 : ℚ) + 1 / 100 :=
  c1_spend_lt_budget_plus_cent
    { min_share_price := 1/10, max_budget := 100 }
    { bot := { cumulative_spend := 0, managed_tokens := [] }, saved_file := none }
    "T1" "M" 10 { bids := [], asks := [{ price := 42/100, size := 5000 }] } true
    { bot := { cumulative_spend := 21/10, managed_tokens := ["T1"] },
      saved_file := some { cumulative_spend := 21/10, managed_tokens := ["T1"] } }
    { token_id := "T1", market_name := some "M", side := .BUY, size := 5, price_limit := 42/100 }
    (by decide)

/-- Claim C4: every BUY submitted by the entry pipeline has
`limit_price = floor2(best_ask)` where `best_ask` is the minimum ask
price, `size = floor2(2.00 / limit_price)` raised to `5.00` when the
quotient is smaller, the minimum-price filter held, and the budget check
used `cost = floor2(size * limit_price)` — all in exact arithmetic. -/
theorem c4_order_sizing (cfg : PMConfig) (st : PMState)
    (token market_label : String) (balance : ℚ) (depth : MarketDepth)
    (placeOrderOk : Bool) (st' : PMState) (o : Order)
    (h : handleBuyCore cfg st token market_label balance depth placeOrderOk = (st', .placed o)) :
    ∃ best_ask, pyMin (depth.asks.map (·.price)) = some best_ask ∧
      best_ask ∈ depth.asks.map (·.price) ∧
      (∀ p ∈ depth.asks.map (·.price), best_ask ≤ p) ∧
      cfg.min_share_price ≤ best_ask ∧
      o.side = .BUY ∧
      o.price_limit = floor2 best_ask ∧
      o.size = (if floor2 (2 / floor2 best_ask) < 5 then 5 else floor2 (2 / floor2 best_ask)) ∧
      5 ≤ o.size ∧
      st.bot.cumulative_spend + floor2 (o.size * o.price_limit) ≤ cfg.max_budget := by
  obtain ⟨ba, hask, hmin, -, hside, hpl, hsz, hbudget, -⟩ :=
    handleBuyCore_placed_inv cfg st token market_label balance depth placeOrderOk st' o h
  refine ⟨ba, hask, pyMin_mem hask, pyMin_le hask, hmin, hside, hpl, hsz, ?_, hbudget⟩
  rw [hsz]
  split
  · exact le_refl 5
  · rename_i hge
    exact le_of_not_lt hge

/-- Claim C4 witness: the sizing spec applied to a concrete submitted
order (asks 0.45 and 0.42, so `best_ask = 0.42` and size is raised to
the 5.00 minimum). -/
theorem c4_witness :
    ∃ best_ask,
      pyMin (({ bids := [], asks := [{ price := 45/100, size := 10 },
          { price := 42/100, size := 5000 }] } : MarketDepth).asks.map (·.price)) =
        some best_ask ∧
      ({ token_id := "T1", market_name := some "M", side := .BUY, size := 5,
          price_limit := 42/100 } : Order).price_limit = floor2 best_ask ∧
      ({ token_id := "T1", market_name := some "M", side := .BUY, size := 5,
          price_limit := 42/100 } : Order).size =
        (if floor2 (2 / floor2 best_ask) < 5 then 5 else floor2 (2 / floor2 best_ask)) := by
  obtain ⟨ba, h1, -, -, -, -, h6, h7, -, -⟩ :=
    c4_order_sizing
      { min_share_price := 1/10, max_budget := 100 }
      { bot := { cumulative_spend := 0, managed_tokens := [] }, saved_file := none }
      "T1" "M" 10
      { bids := [], asks := [{ price := 45/100, size := 10 }, { price := 42/100, size := 5000 }] }
      true
      { bot := { cumulative_spend := 21/10, managed_tokens := ["T1"] },
        saved_file := some { cumulative_spend := 21/10, managed_tokens := ["T1"] } }
      { token_id := "T1", market_name := some "M", side := .BUY, size := 5, price_limit := 42/100 }
      (by decide)
  exact ⟨ba, h1, h6, h7⟩

/-- Claim C10: when `place_order` raises during the BUY submission, the
pipeline's `except` handler absorbs the exception (the embedding is a
total function, so `on_trade_event` returns normally) and the portfolio
state — `cumulative_spend`, `managed_tokens` and the persisted
`bot_state.json` content — is exactly what it was before the attempt:
all three updates are sequenced after `place_order` returns. -/
theorem c10_state_unchanged_on_error (cfg : PMConfig) (st : PMState)
    (token market_label : String) (balance : ℚ) (depth : MarketDepth) :
    (handleBuyCore cfg st token market_label balance depth false).1 = st := by
  simp only [handleBuyCore, Bool.false_eq_true, if_false]
  split
  · rfl
  · split
    · rfl
    · split
      · rfl
      · split
        · rfl
        · split
          · split <;> rfl
          · split <;> rfl

theorem overrideCheckTimes_le_ten : ∀ c ∈ overrideCheckTimes, c ≤ 10 := by decide

theorem ten_mem_overrideCheckTimes : (10 : ℚ) ∈ overrideCheckTimes := by decide

theorem promptManualOverride_approved_iff (marker : Option ℚ) :
    (promptManualOverride marker).1 = true ↔ ∃ t, marker = some t ∧ t ≤ 10 := by
  cases marker with
  | none => simp [promptManualOverride]
  | some t =>
    by_cases hany : (overrideCheckTimes.any fun c => decide (t ≤ c)) = true
    · simp only [promptManualOverride, hany, if_true]
      obtain ⟨c, hc, hd⟩ := List.any_eq_true.1 hany
      constructor
      · intro _
        exact ⟨t, rfl, le_trans (of_decide_eq_true hd) (overrideCheckTimes_le_ten c hc)⟩
      · intro _
        trivial
    · simp only [promptManualOverride, if_neg hany]
      constructor
      · intro hfalse
        cases hfalse
      · rintro ⟨t', ht', hle⟩
        obtain rfl : t = t' := by injection ht'
        exact absurd (List.any_eq_true.2 ⟨10, ten_mem_overrideCheckTimes, decide_eq_true hle⟩) hany

theorem promptManualOverride_deletes_marker (marker : Option ℚ)
    (h : (promptManualOverride marker).1 = true) : (promptManualOverride marker).2 = false := by
  cases marker with
  | none => rfl
  | some t =>
    by_cases hany : (overrideCheckTimes.any fun c => decide (t ≤ c)) = true
    · simp [promptManualOverride, hany]
    · simp only [promptManualOverride, if_neg hany] at h
      cases h

/-- Claim C5: on an AI rejection, a confidence below `ai_min_confidence`
auto-proceeds with no override prompt; at or above it the manager prompts
and proceeds exactly when the filesystem approval marker appears within
the polling window — 20 polls spaced 0.5 s apart, hence a 10 s budget —
deleting the marker on approval, and skips otherwise. -/
theorem c5_ai_reject_gate (a : TradeAnalysis) (min_confidence : ℚ) (marker : Option ℚ)
    (h : a.should_trade = false) :
    (a.confidence < min_confidence → aiGate a min_confidence marker = (true, false)) ∧
    (min_confidence ≤ a.confidence →
      (aiGate a min_confidence marker).2 = true ∧
      ((aiGate a min_confidence marker).1 = true ↔ ∃ t, marker = some t ∧ t ≤ 10) ∧
      ((aiGate a min_confidence marker).1 = true → (promptManualOverride marker).2 = false)) ∧
    overrideCheckTimes.length = 20 ∧
    overrideCheckTimes.head? = some (1/2) ∧
    (overrideCheckTimes.zip (overrideCheckTimes.drop 1)).all
      (fun p => decide (p.2 = p.1 + 1/2)) = true ∧
    overrideCheckTimes.getLast? = some 10 := by
  refine ⟨?_, ?_, by decide, by decide, by decide, by decide⟩
  · intro hlt
    simp only [aiGate, h, Bool.false_eq_true, if_false, if_neg (not_le.2 hlt)]
  · intro hge
    simp only [aiGate, h, Bool.false_eq_true, if_false, if_pos hge]
    exact ⟨by trivial, promptManualOverride_approved_iff marker,
      promptManualOverride_deletes_marker marker⟩

/-- Claim C5 witness: rejection at confidence 0.80 against threshold 0.60
with the marker created 2 s into the window is approved and proceeds. -/
theorem c5_witness :
    (aiGate { should_trade := false, confidence := 4/5, justification := "",
                risk_factors := [], opportunity_factors := [] } (3/5) (some 2)).1 = true := by
  have h := ((c5_ai_reject_gate
    { should_trade := false, confidence := 4/5, justification := "",
      risk_factors := [], opportunity_factors := [] } (3/5) (some 2) rfl).2.1 (by decide)).2.1
  exact h.mpr ⟨2, rfl, by decide⟩

/-- Claim C2 (code bug).  `src/services/portfolio_manager.py` as given has
no hold-threshold logic: `_check_position_risk` exits on `roi >
take_profit_pct` alone, although `src/main.py` constructs
`PortfolioManager` with `take_profit_hold_min_price` /
`stop_loss_hold_min_price` and calls `update_crypto_rules`, none of which
the class defines.  At the spec's scenario (entry 0.40, market 0.77, take
profit 90 percent, hold floor 0.75) the code in `src/` fires a take-profit
exit of half the position while the spec's hold band keeps it open. -/
theorem c2_hold_band_divergence :
    checkPositionRisk (1/5) (9/10)
        { token_id := "T2", size := 10, average_entry_price := 2/5, current_price := 77/100 }
        (77/100) =
      .takeProfitExit 5 (77/100 * (9/10)) ∧
    checkPositionRiskHold (1/5) (9/10) (3/4) (3/4)
        { token_id := "T2", size := 10, average_entry_price := 2/5, current_price := 77/100 }
        (77/100) = .noAction := by
  decide

theorem circuitClose_threshold (s : AIState) :
    (circuitClose s).circuit_breaker_threshold = s.circuit_breaker_threshold := by
  unfold circuitClose
  split <;> rfl

theorem circuitClose_cooldown (s : AIState) :
    (circuitClose s).circuit_breaker_cooldown = s.circuit_breaker_cooldown := by
  unfold circuitClose
  split <;> rfl

theorem recordFailure_failures (s : AIState) (now : ℚ) :
    (recordFailure s now).consecutive_failures = s.consecutive_failures + 1 := by
  simp only [recordFailure]
  split <;> rfl

theorem recordFailure_opens (s : AIState) (now : ℚ)
    (h : s.circuit_breaker_threshold ≤ s.consecutive_failures + 1) :
    (recordFailure s now).circuit_open_until = now + s.circuit_breaker_cooldown := by
  simp only [recordFailure]
  rw [if_pos h]

theorem recordSuccess_failures (s : AIState) :
    (recordSuccess s).consecutive_failures = 0 := by
  unfold recordSuccess
  split
  · rfl
  · rename_i hpos
    exact Nat.eq_zero_of_not_pos hpos

/-- Claim C3 counterexample.  A non-cache call that hits the API request
limit returns the blocking fallback but does not touch
`consecutive_failures` (`should_execute_trade` returns before
`_record_failure` on that path; the circuit-open path behaves the same
way), refuting "every non-cache path that ends in a blocking fallback
increments consecutive_failures". -/
theorem c3_counterexample :
    (shouldExecuteTrade
        { cache := [], request_count := 1, max_requests := 1, consecutive_failures := 0,
          circuit_breaker_threshold := 5, circuit_breaker_cooldown := 60,
          circuit_open_until := 0 } "tok" 0 (.err "boom")).path = .limitBlocked ∧
    (shouldExecuteTrade
        { cache := [], request_count := 1, max_requests := 1, consecutive_failures := 0,
          circuit_breaker_threshold := 5, circuit_breaker_cooldown := 60,
          circuit_open_until := 0 } "tok" 0 (.err "boom")).analysis.should_trade = false ∧
    (shouldExecuteTrade
        { cache := [], request_count := 1, max_requests := 1, consecutive_failures := 0,
          circuit_breaker_threshold := 5, circuit_breaker_cooldown := 60,
          circuit_open_until := 0 } "tok" 0 (.err "boom")).state.consecutive_failures = 0 := by
  decide

/-- Claim C3 (amended): only the rate-limit-timeout and analyzer-exception
fallback paths of `should_execute_trade` increment
`consecutive_failures` (after the expired-circuit reset); when the count
reaches the threshold, `circuit_open_until` becomes `now + cooldown`; a
successful analyzer call resets the count to 0; and the API-limit,
circuit-open and cache-hit paths leave it unchanged. -/
theorem c3_failure_accounting (s : AIState) (token : String) (now : ℚ)
    (outcome : AnalyzerOutcome) :
    ((shouldExecuteTrade s token now outcome).path = .timeoutBlocked ∨
        (shouldExecuteTrade s token now outcome).path = .errorBlocked →
      (shouldExecuteTrade s token now outcome).state.consecutive_failures =
        (circuitClose s).consecutive_failures + 1 ∧
      (s.circuit_breaker_threshold ≤ (circuitClose s).consecutive_failures + 1 →
        (shouldExecuteTrade s token now outcome).state.circuit_open_until =
          now + s.circuit_breaker_cooldown)) ∧
    ((shouldExecuteTrade s token now outcome).path = .success →
      (shouldExecuteTrade s token now outcome).state.consecutive_failures = 0) ∧
    ((shouldExecuteTrade s token now outcome).path = .cacheHit ∨
        (shouldExecuteTrade s token now outcome).path = .limitBlocked ∨
        (shouldExecuteTrade s token now outcome).path = .circuitBlocked →
      (shouldExecuteTrade s token now outcome).state.consecutive_failures =
        s.consecutive_failures) := by
  cases hc : getCachedAnalysis s.cache token with
  | some cached =>
    simp only [shouldExecuteTrade, hc]
    refine ⟨fun hp => ?_, fun hp => ?_, fun _ => True.intro⟩
    · rcases hp with hp | hp <;> cases hp
    · cases hp
  | none =>
    simp only [shouldExecuteTrade, hc]
    by_cases hl : isLimitReached s = true
    · simp only [hl, if_true]
      refine ⟨fun hp => ?_, fun hp => ?_, fun _ => True.intro⟩
      · rcases hp with hp | hp <;> cases hp
      · cases hp
    · simp only [Bool.not_eq_true] at hl
      simp only [hl, Bool.false_eq_true, if_false]
      by_cases ho : isCircuitOpen s now = true
      · simp only [ho, if_true]
        refine ⟨fun hp => ?_, fun hp => ?_, fun _ => True.intro⟩
        · rcases hp with hp | hp <;> cases hp
        · cases hp
      · simp only [Bool.not_eq_true] at ho
        simp only [ho, Bool.false_eq_true, if_false]
        cases outcome with
        | ok a =>
          refine ⟨fun hp => ?_, fun _ => ?_, fun hp => ?_⟩
          · rcases hp with hp | hp <;> cases hp
          · exact recordSuccess_failures _
          · rcases hp with hp | hp | hp <;> cases hp
        | timeout =>
          refine ⟨fun _ => ⟨?_, fun hth => ?_⟩, fun hp => ?_, fun hp => ?_⟩
          · exact recordFailure_failures _ _
          · rw [recordFailure_opens _ now (by rw [circuitClose_threshold]; exact hth),
              circuitClose_cooldown]
          · cases hp
          · rcases hp with hp | hp | hp <;> cases hp
        | err msg =>
          refine ⟨fun _ => ⟨?_, fun hth => ?_⟩, fun hp => ?_, fun hp => ?_⟩
          · exact recordFailure_failures _ _
          · rw [recordFailure_opens _ now (by rw [circuitClose_threshold]; exact hth),
              circuitClose_cooldown]
          · cases hp
          · rcases hp with hp | hp | hp <;> cases hp

/-- Claim C3 witness: a queue-timeout failure at `consecutive_failures =
1` with threshold 2 increments the count and opens the circuit until
`now + cooldown`. -/
theorem c3_witness :
    (shouldExecuteTrade
        { cache := [], request_count := 0, max_requests := 0, consecutive_failures := 1,
          circuit_breaker_threshold := 2, circuit_breaker_cooldown := 60,
          circuit_open_until := 0 } "t" 7 .timeout).state.consecutive_failures =
      (circuitClose
        { cache := [], request_count := 0, max_requests := 0, consecutive_failures := 1,
          circuit_breaker_threshold := 2, circuit_breaker_cooldown := 60,
          circuit_open_until := 0 }).consecutive_failures + 1 ∧
    (shouldExecuteTrade
        { cache := [], request_count := 0, max_requests := 0, consecutive_failures := 1,
          circuit_breaker_threshold := 2, circuit_breaker_cooldown := 60,
          circuit_open_until := 0 } "t" 7 .timeout).state.circuit_open_until = 7 + 60 := by
  have h := (c3_failure_accounting
    { cache := [], request_count := 0, max_requests := 0, consecutive_failures := 1,
      circuit_breaker_threshold := 2, circuit_breaker_cooldown := 60,
      circuit_open_until := 0 } "t" 7 .timeout).1 (Or.inl (by decide))
  exact ⟨h.1, h.2 (by decide)⟩

/-- Claim C6: every failure path of `should_execute_trade` — API request
limit reached, circuit breaker open, rate-limit queue timeout, analyzer
exception — returns `should_trade = false` together with a blocking
`TradeAnalysis` carrying `should_trade = false` and `confidence = 0.0`;
the embedding is a total function, mirroring the `except` clause that
keeps any exception from reaching the caller. -/
theorem c6_failure_paths_block (s : AIState) (token : String) (now : ℚ)
    (outcome : AnalyzerOutcome)
    (h : (shouldExecuteTrade s token now outcome).path = .limitBlocked ∨
      (shouldExecuteTrade s token now outcome).path = .circuitBlocked ∨
      (shouldExecuteTrade s token now outcome).path = .timeoutBlocked ∨
      (shouldExecuteTrade s token now outcome).path = .errorBlocked) :
    (shouldExecuteTrade s token now outcome).approved = false ∧
    (shouldExecuteTrade s token now outcome).analysis.should_trade = false ∧
    (shouldExecuteTrade s token now outcome).analysis.confidence = 0 := by
  cases hc : getCachedAnalysis s.cache token with
  | some cached =>
    simp only [shouldExecuteTrade, hc] at h ⊢
    rcases h with h | h | h | h <;> cases h
  | none =>
    simp only [shouldExecuteTrade, hc] at h ⊢
    by_cases hl : isLimitReached s = true
    · simp only [hl, if_true]
      exact ⟨True.intro, rfl, rfl⟩
    · simp only [Bool.not_eq_true] at hl
      simp only [hl, Bool.false_eq_true, if_false] at h ⊢
      by_cases ho : isCircuitOpen s now = true
      · simp only [ho, if_true]
        exact ⟨True.intro, rfl, rfl⟩
      · simp only [Bool.not_eq_true] at ho
        simp only [ho, Bool.false_eq_true, if_false] at h ⊢
        cases outcome with
        | ok a => rcases h with h | h | h | h <;> cases h
        | timeout => exact ⟨rfl, rfl, rfl⟩
        | err msg => exact ⟨rfl, rfl, rfl⟩

/-- Claim C6 witness: with the request budget exhausted, even an analyzer
that would approve is blocked with a zero-confidence fallback. -/
theorem c6_witness :
    (shouldExecuteTrade
        { cache := [], request_count := 100, max_requests := 100, consecutive_failures := 0,
          circuit_breaker_threshold := 5, circuit_breaker_cooldown := 60,
          circuit_open_until := 0 } "tok" 0
        (.ok { should_trade := true, confidence := 1, justification := "",
               risk_factors := [], opportunity_factors := [] })).approved = false ∧
    (shouldExecuteTrade
        { cache := [], request_count := 100, max_requests := 100, consecutive_failures := 0,
          circuit_breaker_threshold := 5, circuit_breaker_cooldown := 60,
          circuit_open_until := 0 } "tok" 0
        (.ok { should_trade := true, confidence := 1, justification := "",
               risk_factors := [], opportunity_factors := [] })).analysis.confidence = 0 := by
  have h := c6_failure_paths_block
    { cache := [], request_count := 100, max_requests := 100, consecutive_failures := 0,
      circuit_breaker_threshold := 5, circuit_breaker_cooldown := 60,
      circuit_open_until := 0 } "tok" 0
    (.ok { should_trade := true, confidence := 1, justification := "",
           risk_factors := [], opportunity_factors := [] })
    (Or.inl (by decide))
  exact ⟨h.1, h.2.2⟩

theorem processActivity_timestamp {a : Activity} {e : WhaleEvent}
    (h : processActivity a = some e) : e.timestamp = a.timestamp := by
  unfold processActivity at h
  split at h
  · cases hs : sideOfString a.side with
    | some sd =>
      rw [hs] at h
      injection h with h1
      rw [← h1]
    | none =>
      rw [hs] at h
      cases h
  · cases h

theorem checkWallet_cursor_le (c : ℕ) (f : List Activity) : c ≤ (checkWallet c f).1 := by
  cases f with
  | nil => exact le_refl c
  | cons a rest =>
    simp only [checkWallet]
    split
    · exact le_refl c
    · split
      · rename_i hc
        rw [hc]
        exact Nat.zero_le _
      · split
        · rename_i hlt
          exact le_of_lt hlt
        · exact le_refl c

theorem checkWallet_event {c : ℕ} {f : List Activity} {e : WhaleEvent}
    (h : (checkWallet c f).2 = some e) :
    (checkWallet c f).1 = e.timestamp ∧ c < e.timestamp := by
  cases f with
  | nil => cases h
  | cons a rest =>
    simp only [checkWallet] at h ⊢
    split at h
    · cases h
    · split at h
      · cases h
      · split at h
        · rename_i hlt
          have ht := processActivity_timestamp h
          rw [if_neg (by assumption), if_neg (by assumption), if_pos hlt]
          exact ⟨ht.symm, lt_of_lt_of_eq hlt ht.symm⟩
        · cases h

theorem runWallet_invariant (fs : List (List Activity)) : ∀ c : ℕ,
    c ≤ (runWallet c fs).1 ∧
    (∀ e ∈ (runWallet c fs).2, c < e.timestamp ∧ e.timestamp ≤ (runWallet c fs).1) ∧
    List.Chain' (fun e1 e2 => e1.timestamp < e2.timestamp) (runWallet c fs).2 := by
  induction fs with
  | nil =>
    intro c
    exact ⟨le_refl c, fun e he => absurd he (List.not_mem_nil e), List.chain'_nil⟩
  | cons f fs ih =>
    intro c
    obtain ⟨ih1, ih2, ih3⟩ := ih (checkWallet c f).1
    have hc1 := checkWallet_cursor_le c f
    simp only [runWallet]
    refine ⟨le_trans hc1 ih1, fun e he => ?_, ?_⟩
    · rcases List.mem_append.1 he with he | he
      · have hsome : (checkWallet c f).2 = some e := by
          cases hr : (checkWallet c f).2 with
          | none => rw [hr] at he; simp at he
          | some e' =>
            rw [hr] at he
            simp only [Option.toList_some, List.mem_singleton] at he
            exact congrArg some he.symm
        obtain ⟨heq, hlt⟩ := checkWallet_event hsome
        exact ⟨hlt, heq ▸ ih1⟩
      · obtain ⟨hlt, hle⟩ := ih2 e he
        exact ⟨lt_of_le_of_lt hc1 hlt, hle⟩
    · cases hr : (checkWallet c f).2 with
      | none => simpa using ih3
      | some e =>
        simp only [Option.toList_some, List.singleton_append]
        refine List.Chain'.cons' ih3 (fun y hy => ?_)
        have hmem := List.mem_of_mem_head? hy
        obtain ⟨hlt, -⟩ := ih2 y hmem
        rw [(checkWallet_event hr).1] at hlt
        exact hlt

/-- Claim C7 counterexample.  An activity with a strictly newer timestamp
but `type = "REDEEM"` advances the cursor and emits nothing, so "an event
is emitted if and only if the newest activity timestamp strictly exceeds
the stored cursor" fails in the if direction. -/
theorem c7_counterexample :
    checkWallet 5 [{ timestamp := 10, activity_type := "REDEEM", side := "BUY" }] =
      (10, none) := by
  decide

/-- Claim C7 (amended): the first observation stores the cursor and emits
nothing; afterwards an event is emitted iff the newest timestamp strictly
exceeds the cursor AND the activity is a TRADE/MATCH with a recognized
side (non-trade activities still advance the cursor silently); the cursor
is advanced to the event timestamp before the handler runs; and the events
emitted for one wallet have strictly increasing timestamps. -/
theorem c7_event_emission :
    (∀ f, (checkWallet 0 f).2 = none) ∧
    (∀ (a : Activity) (rest : List Activity), a.timestamp ≠ 0 →
      checkWallet 0 (a :: rest) = (a.timestamp, none)) ∧
    (∀ (c : ℕ) (a : Activity) (rest : List Activity), c ≠ 0 →
      ((checkWallet c (a :: rest)).2.isSome = true ↔
        (c < a.timestamp ∧ (a.activity_type = "TRADE" ∨ a.activity_type = "MATCH") ∧
          (sideOfString a.side).isSome = true))) ∧
    (∀ (c : ℕ) (f : List Activity) (e : WhaleEvent), (checkWallet c f).2 = some e →
      (checkWallet c f).1 = e.timestamp ∧ c < e.timestamp) ∧
    (∀ (c : ℕ) (fs : List (List Activity)),
      List.Chain' (fun e1 e2 => e1.timestamp < e2.timestamp) (runWallet c fs).2) := by
  refine ⟨?_, ?_, ?_, fun c f e h => checkWallet_event h,
    fun c fs => (runWallet_invariant fs c).2.2⟩
  · intro f
    cases f with
    | nil => rfl
    | cons a rest =>
      simp only [checkWallet]
      split <;> simp
  · intro a rest h0
    simp only [checkWallet]
    rw [if_neg h0]
    simp
  · intro c a rest hc
    simp only [checkWallet]
    by_cases h0 : a.timestamp = 0
    · rw [if_pos h0]
      simp [h0]
    · rw [if_neg h0, if_neg hc]
      by_cases hlt : c < a.timestamp
      · rw [if_pos hlt]
        simp only [hlt, true_and]
        unfold processActivity
        split
        · rename_i htype
          cases hs : sideOfString a.side with
          | some sd => simp [htype, hs]
          | none => simp [htype, hs]
        · rename_i htype
          simp only [Option.isSome_none, Bool.false_eq_true, false_iff, not_and]
          intro ht
          exact absurd ht htype
      · rw [if_neg hlt]
        simp [hlt]

/-- Claim C7 witness: with cursor 5, a TRADE at timestamp 10 is emitted. -/
theorem c7_witness :
    (checkWallet 5 [{ timestamp := 10, activity_type := "TRADE", side := "BUY" }]).2.isSome =
      true := by
  have h := c7_event_emission.2.2.1 5
    { timestamp := 10, activity_type := "TRADE", side := "BUY" } [] (by decide)
  exact h.mpr (by decide)

theorem exitSweeps_spec (book : ℕ → List MarketDepthLevel) (placeOk : ℕ → Bool)
    (token market_name : String) (min_price : ℚ) :
    ∀ (sweeps_left sweep : ℕ) (remaining sold : ℚ),
      (exitSweeps book placeOk token market_name min_price sweep sweeps_left remaining sold).2.length ≤
        sweeps_left ∧
      (∀ o ∈ (exitSweeps book placeOk token market_name min_price sweep sweeps_left remaining sold).2,
        o.side = .SELL ∧ o.price_limit = min_price ∧ o.token_id = token) ∧
      (exitSweeps book placeOk token market_name min_price sweep sweeps_left remaining sold).1 =
        sold + (((exitSweeps book placeOk token market_name min_price sweep sweeps_left remaining
          sold).2).map (·.size)).sum ∧
      (0 ≤ remaining →
        (exitSweeps book placeOk token market_name min_price sweep sweeps_left remaining sold).1 ≤
          sold + remaining) := by
  intro sweeps_left
  induction sweeps_left with
  | zero =>
    intro sweep remaining sold
    refine ⟨Nat.le_refl 0, fun o ho => absurd ho (List.not_mem_nil o), by simp [exitSweeps],
      fun hr => ?_⟩
    simp only [exitSweeps]
    linarith
  | succ n ih =>
    intro sweep remaining sold
    simp only [exitSweeps]
    split
    · rename_i hr0
      refine ⟨Nat.zero_le _, fun o ho => absurd ho (List.not_mem_nil o), by simp, fun hr => ?_⟩
      simp only
      linarith
    · rename_i hr0
      split
      · refine ⟨Nat.zero_le _, fun o ho => absurd ho (List.not_mem_nil o), by simp, fun hr => ?_⟩
        simp only
        linarith
      · rename_i bhead btail hbook
        split
        · exact ⟨le_trans (ih (sweep + 1) remaining sold).1 (Nat.le_succ n),
            (ih (sweep + 1) remaining sold).2.1, (ih (sweep + 1) remaining sold).2.2.1,
            (ih (sweep + 1) remaining sold).2.2.2⟩
        · rename_i hchunk
          split
          · obtain ⟨ih1, ih2, ih3, ih4⟩ := ih (sweep + 1)
              (remaining - floor2 (min remaining (fillableQty min_price (bhead :: btail))))
              (sold + floor2 (min remaining (fillableQty min_price (bhead :: btail))))
            refine ⟨?_, fun o ho => ?_, ?_, fun hr => ?_⟩
            · dsimp only
              simpa using Nat.succ_le_succ ih1
            · dsimp only at ho
              rcases List.mem_cons.1 ho with ho | ho
              · rw [ho]
                exact ⟨rfl, rfl, rfl⟩
              · exact ih2 o ho
            · dsimp only
              simp only [List.map_cons, List.sum_cons]
              rw [ih3]
              ring
            · dsimp only
              have hle : floor2 (min remaining (fillableQty min_price (bhead :: btail))) ≤
                  remaining := le_trans (floor2_le _) (min_le_left _ _)
              have := ih4 (by linarith)
              linarith
          · exact ⟨le_trans (ih (sweep + 1) remaining sold).1 (Nat.le_succ n),
              (ih (sweep + 1) remaining sold).2.1, (ih (sweep + 1) remaining sold).2.2.1,
              (ih (sweep + 1) remaining sold).2.2.2⟩

/-- Claim C8: `exit_position` makes at most `max_sweeps` sweeps; each sweep
computes the fillable liquidity as the sum of the sizes of all bids at or
above the floor (the sorted-prefix accumulation equals that filter-sum);
every successful submission is a SELL whose `price_limit` is the floor
`min_price` itself and counts as a full fill of its chunk; and the total
sold — the sum of the submitted chunks — never exceeds `total_size`. -/
theorem c8_exit_position_spec (book : ℕ → List MarketDepthLevel) (placeOk : ℕ → Bool)
    (token market_name : String) (total_size min_price : ℚ) (max_sweeps : ℕ)
    (h : 0 ≤ total_size) :
    (exitPosition book placeOk token market_name total_size min_price max_sweeps).1 ≤
      total_size ∧
    (exitPosition book placeOk token market_name total_size min_price max_sweeps).2.length ≤
      max_sweeps ∧
    (∀ o ∈ (exitPosition book placeOk token market_name total_size min_price max_sweeps).2,
      o.side = .SELL ∧ o.price_limit = min_price ∧ o.token_id = token) ∧
    (exitPosition book placeOk token market_name total_size min_price max_sweeps).1 =
      (((exitPosition book placeOk token market_name total_size min_price max_sweeps).2).map
        (·.size)).sum ∧
    (∀ bids, fillableQty min_price bids =
      ((bids.filter (fun b => decide (min_price ≤ b.price))).map (·.size)).sum) := by
  obtain ⟨h1, h2, h3, h4⟩ :=
    exitSweeps_spec book placeOk token market_name min_price max_sweeps 1 total_size 0
  refine ⟨by simpa using h4 h, h1, h2, by simpa using h3,
    fun bids => fillableQty_eq_filter_sum min_price bids⟩

/-- Claim C8 witness: the spec's drip scenario — 100 shares, floor 0.30,
book `0.32 x 40, 0.31 x 30, 0.29 x 100` on every sweep — sells at most the
position and its fillable liquidity per sweep is 70. -/
theorem c8_witness :
    (exitPosition
        (fun _ => [{ price := 32/100, size := 40 }, { price := 31/100, size := 30 },
          { price := 29/100, size := 100 }])
        (fun _ => true) "T" "M" 100 (3/10) 6).1 ≤ 100 ∧
    fillableQty (3/10) [{ price := 32/100, size := 40 }, { price := 31/100, size := 30 },
      { price := 29/100, size := 100 }] =
      (([({ price := 32/100, size := 40 } : MarketDepthLevel),
          { price := 31/100, size := 30 }, { price := 29/100, size := 100 }].filter
        (fun b => decide ((3:ℚ)/10 ≤ b.price))).map (·.size)).sum := by
  have h := c8_exit_position_spec
    (fun _ => [{ price := 32/100, size := 40 }, { price := 31/100, size := 30 },
      { price := 29/100, size := 100 }])
    (fun _ => true) "T" "M" 100 (3/10) 6 (by decide)
  exact ⟨h.1, h.2.2.2.2 _⟩

/-- Claim C9 counterexample.  `AIRateLimiter.__init__` computes
`max(int(rps * 2), 5)`, truncating rather than taking the ceiling: at
`rps = 2.6` the code's burst capacity is `max(5, 5) = 5` while the
claimed formula gives `max(ceil(5.2), 5) = 6`. -/
theorem c9_counterexample :
    (rateLimiterInit (13/5) 10 120 none 0).burst_capacity = 5 ∧
    max (⌈(2 * (13/5 : ℚ))⌉ : ℤ) 5 = 6 := by
  have h6 : (⌈(2 * (13/5 : ℚ))⌉ : ℤ) = 6 := by
    rw [Int.ceil_eq_iff]
    norm_num
  refine ⟨by decide, ?_⟩
  rw [h6]
  decide

/-- Claim C9 (amended): for nonnegative `rps` the token-bucket capacity is
`max(floor(2 * rps), 5)` — `int()` truncates — both at construction and
after every reconfiguration of `rps`; the initial token count equals the
capacity; and a refill adds `elapsed * rps` tokens capped at the
capacity. -/
theorem c9_burst_capacity (rps rps2 : ℚ) (mc : ℕ) (qt now : ℚ) (s : RateLimiterState)
    (mc? : Option ℕ) (qt? : Option ℚ) (h1 : 0 ≤ rps) (h2 : 0 ≤ rps2) :
    (rateLimiterInit rps mc qt none now).burst_capacity = max ⌊(2 * rps : ℚ)⌋ 5 ∧
    (rateLimiterInit rps mc qt none now).tokens = ((max ⌊(2 * rps : ℚ)⌋ 5 : ℤ) : ℚ) ∧
    (updateConfig s (some rps2) mc? qt?).burst_capacity = max ⌊(2 * rps2 : ℚ)⌋ 5 ∧
    (refillTokens s now).tokens =
      min (s.tokens + (now - s.last_refill) * s.rps) ((s.burst_capacity : ℤ) : ℚ) := by
  have hb : ∀ r : ℚ, 0 ≤ r → defaultBurst r = max ⌊(2 * r : ℚ)⌋ 5 := by
    intro r hr
    unfold defaultBurst
    rw [pyInt_eq_floor _ (by positivity), mul_comm]
  refine ⟨?_, ?_, ?_, rfl⟩
  · simp only [rateLimiterInit]
    exact hb rps h1
  · simp only [rateLimiterInit]
    rw [hb rps h1]
  · cases mc? <;> cases qt? <;> simp only [updateConfig] <;> exact hb rps2 h2

/-- Claim C9 witness: the amended capacity formula at `rps = 2.6` — the
configuration of the counterexample — gives `max(floor(5.2), 5) = 5`. -/
theorem c9_witness :
    (rateLimiterInit (13/5) 10 120 none 0).burst_capacity = max ⌊(2 * (13/5 : ℚ) : ℚ)⌋ 5 :=
  (c9_burst_capacity (13/5) 1 10 120 0 (rateLimiterInit 1 1 1 none 0) none none
    (by decide) (by decide)).1

end Polybot
